import Mathlib

/-!
Shallow embedding of the Discord trivia backend's room/session engine:
the polling gateway (`/api/game-event`: start_question / select_option /
end_round), the push (socket) gateway (join, start_question, select_option,
timer resolution), the daily leaderboard reset, and the shared scoring
functions.  JavaScript objects used as string-keyed maps are modelled as
association lists (`List (String × β)`) with insertion-order-preserving
update (`upsert`), matching JS property-update semantics.  JS `undefined`
is modelled with `Option`; JS numbers that are integral in the source
(timestamps, option indices, scores) are `Int`, and fractional quantities
(seconds, the scoring curve) are `ℚ`.
-/

namespace DiscordBackend

/-- JS object property read: `obj[k]`, `undefined` when absent. -/
def aget {β : Type} : List (String × β) → String → Option β
  | [], _ => none
  | (k, v) :: rest, key => if k = key then some v else aget rest key

/-- JS object property read with a default for `undefined`. -/
def agetD {β : Type} (l : List (String × β)) (key : String) (d : β) : β :=
  (aget l key).getD d

/-- JS object property write `obj[k] = v`: replaces in place if the key
exists (property order is preserved), appends otherwise. -/
def upsert {β : Type} : List (String × β) → String → β → List (String × β)
  | [], key, v => [(key, v)]
  | (k, w) :: rest, key, v =>
    if k = key then (key, v) :: rest else (k, w) :: upsert rest key v

/-- JS `delete obj[k]`. -/
def removeKey {β : Type} (l : List (String × β)) (key : String) : List (String × β) :=
  l.filter (fun kv => kv.1 ≠ key)

/-- Map over the values of a JS object, keeping keys and order. -/
def mapVals {β γ : Type} (f : β → γ) (l : List (String × β)) : List (String × γ) :=
  l.map (fun kv => (kv.1, f kv.2))

/-- The keys of a JS object. -/
def keysOf {β : Type} (l : List (String × β)) : List String :=
  l.map Prod.fst

/-- JS `x || d` on a possibly-undefined number: `0` is falsy. -/
def jsNumOr (x : Option Int) (d : Int) : Int :=
  match x with
  | some v => if v = 0 then d else v
  | none => d

/-- JS `Math.round` (round half towards +∞): `Math.round(x) = ⌊x + 0.5⌋`. -/
def jsRound (q : ℚ) : Int := ⌊q + 1 / 2⌋

/-- JS `String.prototype.startsWith(pre)`: a prefix test, modelled on the
character list of the string (identical for the ASCII data involved). -/
def jsStartsWith (s pre : String) : Bool := pre.data.isPrefixOf s.data

/-- JS `Array.prototype.findIndex`: index of the first match, `-1` if none. -/
def jsFindIndex (l : List String) (p : String → Bool) : Int :=
  match l.findIdx? p with
  | some i => (i : Int)
  | none => -1

/-- `const MAX_TIME = 15` (round duration in seconds). -/
def MAX_TIME : Int := 15

/-- `const MAX_POINTS = 150`. -/
def MAX_POINTS : ℚ := 150

/-- `const SCORING_EXPONENT = 2`. -/
def SCORING_EXPONENT : ℕ := 2

/-- `function calculatePointsFromTime(timeTaken)` from the polling path
(identical in both source copies).  `!timeTaken || timeTaken <= 0`
returns 0 (this includes `timeTaken === 0` and `undefined`); otherwise
`timeLeft = Math.max(0, MAX_TIME - timeTaken)`,
`x = Math.max(0, Math.min(1, timeLeft / MAX_TIME))`,
`points = Math.round(MAX_POINTS * Math.pow(x, SCORING_EXPONENT))`. -/
def calculatePointsFromTime (timeTaken : Option ℚ) : Int :=
  match timeTaken with
  | none => 0
  | some t =>
    if t ≤ 0 then 0
    else
      let timeLeft : ℚ := max 0 ((MAX_TIME : ℚ) - t)
      let x : ℚ := max 0 (min 1 (timeLeft / (MAX_TIME : ℚ)))
      jsRound (MAX_POINTS * x ^ SCORING_EXPONENT)

/-- Either `waiting` (initial), `active` (push `start_question`), or
`playing` (polling `start_question`). -/
inductive GameState where
  | waiting
  | active
  | playing
deriving DecidableEq, Repr

/-- A per-round selection recorded by the polling `select_option` handler:
`{ optionIndex: data.optionIndex, timeTaken: data.timeTaken, timestamp: Date.now() }`.
Both client-supplied fields may be `undefined`. -/
structure Selection where
  optionIndex : Option Int
  timeTaken : Option ℚ
  timestamp : Int
deriving DecidableEq, Repr

/-- A question object stored in `room.currentQuestion`.  The source builds
several shapes (polling trivia `{question, options, answer, id}`, polling
card `{isCard, cardName, cardUrl, id}`, push
`{id, question, options, correctIndex}` later spread with
`startTime`/`maxTime`); absent fields are `undefined`, so every field is
optional here. -/
structure Question where
  isCard : Bool := false
  cardName : Option String := none
  cardUrl : Option String := none
  question : Option String := none
  options : Option (List String) := none
  answer : Option String := none
  correctIndex : Option Int := none
  startTime : Option Int := none
  maxTime : Option Int := none
  qid : Option String := none
deriving DecidableEq, Repr

/-- A player record added by the socket connection handler. -/
structure Player where
  id : String
  name : String
  score : Int
  socketId : String
  avatar : Option String
deriving DecidableEq, Repr

/-- A room object from the `rooms` map.  Field defaults are the values the
three room-creation sites assign (empty maps, `null` question/host,
`'waiting'` state); flags like `roundEnded` that those sites omit start as
JS `undefined`, which every read treats as `false`/absent, so they default
to `false`/`none` here. -/
structure Room where
  players : List (String × Player) := []
  currentQuestion : Option Question := none
  selections : List (String × Int) := []
  currentSelections : List (String × Selection) := []
  hostSocketId : Option String := none
  gameState : GameState := .waiting
  scores : List (String × Int) := []
  playerNames : List (String × String) := []
  questionStartTime : Option Int := none
  roundEnded : Bool := false
  generatingQuestion : Bool := false
  lastSelections : Option (List (String × Option Int)) := none
  lastCorrectAnswer : Option String := none
  lastActive : Int := 0
deriving DecidableEq, Repr

/-- The `correctIndex` computed inside the polling `end_round` scoring
loop: `currentQuestion.options?.findIndex(opt => opt.startsWith(currentQuestion.answer))`
(`undefined` when the question has no `options`, as card questions do not;
when `options` exists, `answer` is a string on every question the source
builds, so the `getD` default is never consulted). -/
def correctIndexOf (q : Question) : Option Int :=
  q.options.map (fun opts => jsFindIndex opts (fun opt => jsStartsWith opt (q.answer.getD "undefined")))

/-- One iteration of the polling `end_round` scoring loop for entry
`(playerId, selection)`:
`if (!room.scores[playerId]) room.scores[playerId] = 0;` then, when
`selection.optionIndex === correctIndex`, `room.scores[playerId] += points`. -/
def scoreOne (q : Question) (sc : List (String × Int)) (playerId : String) (sel : Selection) :
    List (String × Int) :=
  let sc1 := if agetD sc playerId 0 = 0 then upsert sc playerId 0 else sc
  if sel.optionIndex == correctIndexOf q then
    upsert sc1 playerId (agetD sc1 playerId 0 + calculatePointsFromTime sel.timeTaken)
  else sc1

/-- The whole `Object.entries(roundSelections).forEach(...)` scoring loop. -/
def applyScoring (q : Question) (sc : List (String × Int)) (sels : List (String × Selection)) :
    List (String × Int) :=
  sels.foldl (fun acc kv => scoreOne q acc kv.1 kv.2) sc

/-- Response payload of the polling `end_round` handler
(`data` of the `round_complete` action). -/
structure EndRoundResp where
  selections : List (String × Option Int)
  scores : List (String × Int)
  playerNames : List (String × String)
  correctAnswer : Option String
deriving DecidableEq, Repr

/-- The `case 'end_round'` handler of `POST /api/game-event` for an
existing room: if `room.roundEnded` it replays the cached
`lastSelections`/`scores`/`lastCorrectAnswer` with no state change;
otherwise it marks the round ended, runs the scoring loop against
`room.currentQuestion` (skipped when the question is `null`), converts the
selections for the client, caches them, responds, and clears
`currentSelections` (the question itself is kept). -/
def endRoundHttp (room : Room) : Room × EndRoundResp :=
  if room.roundEnded then
    (room,
      { selections := room.lastSelections.getD []
        scores := room.scores
        playerNames := room.playerNames
        correctAnswer := room.lastCorrectAnswer })
  else
    let roundSelections := room.currentSelections
    let scores' := match room.currentQuestion with
      | some q => applyScoring q room.scores roundSelections
      | none => room.scores
    let clientSelections := roundSelections.map (fun kv => (kv.1, kv.2.optionIndex))
    let correctAnswer := room.currentQuestion.bind (fun q => q.answer)
    let room' : Room :=
      { room with
        roundEnded := true
        scores := scores'
        lastSelections := some clientSelections
        lastCorrectAnswer := correctAnswer
        currentSelections := [] }
    (room',
      { selections := clientSelections
        scores := scores'
        playerNames := room.playerNames
        correctAnswer := correctAnswer })

/-- The `case 'select_option'` handler of `POST /api/game-event` for an
existing room: overwrites the player's selection, records the display name
when one is sent (`if (data.playerName)`), and touches `lastActive`. -/
def selectOptionHttp (room : Room) (playerId : String) (optionIndex : Option Int)
    (timeTaken : Option ℚ) (playerName : Option String) (now : Int) : Room :=
  { room with
    currentSelections :=
      upsert room.currentSelections playerId ⟨optionIndex, timeTaken, now⟩
    playerNames :=
      match playerName with
      | some n => upsert room.playerNames playerId n
      | none => room.playerNames
    lastActive := now }

/-- Response of the polling `start_question` handler: either the existing
question for synchronization, the deferred `setTimeout` wait while another
request is generating, or a freshly generated question. -/
inductive StartQuestionResp where
  | existing (question : Question) (timeLeft : Int) (startTime : Int) (showResult : Bool)
  | pending
  | fresh (question : Question) (timeLeft : Int) (startTime : Int)
deriving DecidableEq, Repr

/-- The `case 'start_question'` handler of `POST /api/game-event` for an
existing room.  The randomly generated question is passed in as `freshQ`
(the output of `getRandomQuestion()`), `now` is `Date.now()`.  Without
`forceNew`, an existing `currentQuestion` is returned with
`timeLeft = Math.max(0, MAX_TIME - Math.floor((now - (questionStartTime || now)) / 1000))`
and the room untouched; with the `generatingQuestion` lock held the
request is deferred; otherwise a new question is installed
(`gameState = 'playing'`, `roundEnded = false`, selections cleared) and
returned with the full `MAX_TIME`. -/
def startQuestionHttp (room : Room) (forceNew : Bool) (now : Int) (freshQ : Question) :
    Room × StartQuestionResp :=
  match forceNew, room.currentQuestion with
  | false, some q =>
    let questionStartTime := jsNumOr room.questionStartTime now
    let elapsedSeconds := Int.fdiv (now - questionStartTime) 1000
    let remainingTime := max 0 (MAX_TIME - elapsedSeconds)
    (room, .existing q remainingTime questionStartTime
      (room.roundEnded || decide (remainingTime ≤ 0)))
  | _, _ =>
    if room.generatingQuestion then (room, .pending)
    else
      let room' : Room :=
        { room with
          currentQuestion := some freshQ
          questionStartTime := some now
          lastActive := now
          gameState := .playing
          roundEnded := false
          currentSelections := []
          generatingQuestion := false }
      (room', .fresh freshQ MAX_TIME now)

/-- The Age of Empires III card-name pool (`cardNames`). -/
def cardNames : List String :=
  ["Conquistador", "Team Fencing Instructor", "Unction", "Team Spanish Road", "Team Hidalgos",
   "Native Lore", "Advanced Trading Post", "Town Militia", "Pioneers", "Advanced Mill",
   "Advanced Market", "Advanced Estate", "Advanced Dock", "Llama Ranching", "Ranching",
   "Fish Market", "Schooners", "Sawmills", "Exotic Hardwoods", "Team Ironmonger",
   "Stockyards", "Furrier", "Rum Distillery", "Capitalism", "Stonemasons",
   "Land Grab", "Team Coastal Defenses", "Tercio Tactics", "Reconquista", "Advanced Arsenal",
   "Extensive Fortifications", "Rendering Plant", "Silversmith", "Sustainable Agriculture",
   "Spice Trade", "Medicine", "Cigar Roller", "Spanish Galleons", "Theaters", "Caballeros",
   "Liberation March", "Spanish Gold", "Armada", "Mercenary Loyalty", "Grenade Launchers",
   "Improved Buildings", "Blood Brothers", "Peninsular Guerrillas", "Advanced Balloon",
   "Florence Nightingale", "Virginia Company", "South Sea Bubble", "Fulling Mills", "Yeomen",
   "Siege Archery", "Master Surgeons", "Northwest Passage", "Distributivism",
   "Wilderness Warfare", "French Royal Army", "Naval Gunners", "Thoroughbreds",
   "Gribeauval System", "Navigator", "Agents", "Portuguese White Fleet", "Carracks",
   "Stadhouder", "Admiral Tromp", "Tulip Speculation", "Willem", "Polar Explorer",
   "Engineering School", "Suvorov Reforms", "Ransack", "Polk", "Offshore Support",
   "Germantown Farmers", "Guild Artisans", "Spanish Riding School", "Mosque Construction",
   "Flight Archery", "New Ways", "Beaver Wars", "Medicine Wheels", "Black Arrow",
   "Silent Strike", "Smoking Mirror", "Boxer Rebellion", "Western Reforms",
   "Advanced Wonders", "Seven Lucky Gods", "Desert Terror", "Foreign Logging", "Salt Ponds",
   "Imperial Unity", "Duelist", "Trample Tactics", "Virginia Oak", "Coffee Mill Guns",
   "Bushburning", "Beekeepers", "Koose", "Kingslayer", "Barbacoa",
   "Man of Destiny", "Freemasons", "Admirality", "Advanced Commanderies", "Bailiff",
   "Fire Towers", "Native Treaties", "Advanced Scouts", "Grain Market", "Chinampa",
   "Knight Hitpoints", "Knight Attack", "Aztec Mining", "Ritual Gladiators",
   "Artificial Islands", "Knight Combat", "Scorched Earth", "Aztec Fortification",
   "Chichimeca Rebellion", "Wall of Skulls", "Old Ways", "Improved Warships",
   "Terraced Houses", "Rangers", "Textile Mill", "Refrigeration", "Royal Mint",
   "Greenwich Time", "Dowager Empress", "Year of the Goat", "Year of the Tiger",
   "Year of the Ox", "Year of the Dragon", "Acupuncture", "Repelling Volley",
   "Native Crafts", "Colbertism", "Cartridge Currency", "European Cannons", "Voyageur",
   "Solingen Steel", "Town Destroyer", "Battlefield Construction", "Conservative Tactics",
   "Dane Guns"]

/-- `getCardImagePath`: spaces become underscores, `:` and `/` are removed
(the names in `cardNames` contain no repeated whitespace, so per-character
replacement coincides with the source's `\s+` collapse). -/
def getCardImagePath (cardName : String) : String :=
  "./assets/cards/" ++ (((cardName.replace " " "_").replace ":" "").replace "/" "") ++ ".png"

/-- A raw record from the static `questions.json` pool. -/
structure RawTrivia where
  question : String
  options : List String
  answer : String
deriving DecidableEq, Repr

/-- `getRandomQuestion()` of the polling path, with the random draws made
explicit: `pickCard` is `Math.random() < 0.45` and `idx` the random index
into the chosen pool (`pool` stands for the loaded `questions.json`).
The card branch returns `{isCard, cardName, cardUrl, id}` — no `options`
and no `answer`; the trivia branch returns `{question, options, answer, id}`. -/
def getRandomQuestion (pickCard : Bool) (idx : ℕ) (pool : List RawTrivia) : Question :=
  if pickCard && decide (cardNames.length > 0) then
    let name := cardNames.getD idx ""
    { isCard := true
      cardName := some name
      cardUrl := some (getCardImagePath name)
      qid := some ("card_" ++ toString idx) }
  else
    let q := pool.getD idx ⟨"", [], ""⟩
    { question := some q.question
      options := some q.options
      answer := some q.answer
      qid := some (toString idx) }

/-- `pickRandomQuestion(room)` of the push path (the drawn pool record and
its random index are explicit parameters): stores `correctIndex` resolved
via `options.findIndex(opt => opt.startsWith(answer))`; the `answer`
letter itself is not kept on the question object. -/
def pickRandomQuestion (qraw : RawTrivia) (idx : ℕ) (now : Int) : Question :=
  { question := some qraw.question
    options := some qraw.options
    correctIndex := some (jsFindIndex qraw.options (fun opt => jsStartsWith opt qraw.answer))
    qid := some ("q_" ++ toString now ++ "_" ++ toString idx) }

/-- `computeScores(room)` (push path), with `Date.now()` passed as `now`:
`bonusFactor = Math.ceil((remaining / maxTime) * 10)` is added to the
score of every player whose selection strictly equals `correctIndex`.
`currentQuestion.startTime || endTime` and `maxTime || MAX_TIME` use JS
falsiness (0 counts as absent). -/
def computeScores (room : Room) (now : Int) : List (String × Player) :=
  match room.currentQuestion with
  | none => room.players
  | some q =>
    let correct := q.correctIndex
    let startTime := jsNumOr q.startTime now
    let maxTime := jsNumOr q.maxTime MAX_TIME
    let elapsedSec := max 0 (Int.fdiv (now - startTime) 1000)
    let remaining := max 0 (maxTime - elapsedSec)
    let bonusFactor : Int := ⌈((remaining : ℚ) / (maxTime : ℚ)) * 10⌉
    room.players.map (fun kv =>
      if aget room.selections kv.1 == correct then
        (kv.1, { kv.2 with score := kv.2.score + bonusFactor })
      else kv)

/-- Payload of the push `show_result` broadcast. -/
structure ShowResult where
  correctIndex : Option Int
  scores : List (String × Int)
  selections : List (String × Int)
deriving DecidableEq, Repr

/-- The round-expiry timer callback armed by the push `start_question`
handler, firing at instant `now`: `computeScores`, rebuild the
`room.scores` view from `players`, broadcast
`show_result {correctIndex, scores, selections}`, then clear
`currentQuestion`, `selections` and the timer.  `none` models the
TypeError the callback would throw with no current question (unreachable:
the timer is cleared whenever the question is cleared). -/
def resolveRoundTimer (room : Room) (now : Int) : Option (Room × ShowResult) :=
  match room.currentQuestion with
  | none => none
  | some q =>
    let players' := computeScores room now
    let scores' := players'.map (fun kv => (kv.1, kv.2.score))
    let result : ShowResult :=
      { correctIndex := q.correctIndex, scores := scores', selections := room.selections }
    let room' : Room :=
      { room with
        players := players'
        scores := scores'
        currentQuestion := none
        selections := [] }
    some (room', result)

/-- The early-resolution block inside the push `select_option` handler
(the source duplicates the timer callback's body there verbatim);
transcribed separately so the equivalence of the two code paths is a
statement about two definitions. -/
def resolveRoundEarly (room : Room) (now : Int) : Option (Room × ShowResult) :=
  match room.currentQuestion with
  | none => none
  | some q =>
    let players' := computeScores room now
    let scores' := players'.map (fun kv => (kv.1, kv.2.score))
    let result : ShowResult :=
      { correctIndex := q.correctIndex, scores := scores', selections := room.selections }
    let room' : Room :=
      { room with
        players := players'
        scores := scores'
        currentQuestion := none
        selections := [] }
    some (room', result)

/-- The push `socket.on('start_question')` handler for caller `socketId`:
silently ignored unless the caller is host and the room is not already
`'active'`; otherwise attaches `startTime=now`, `maxTime=MAX_TIME` to the
drawn question, clears selections, sets `gameState='active'` and
`roundEnded=false`, and arms the expiry timer (the timer's later firing is
`resolveRoundTimer`). -/
def pushStartQuestion (room : Room) (socketId : String) (qraw : RawTrivia) (idx : ℕ)
    (now : Int) : Room :=
  if room.hostSocketId ≠ some socketId then room
  else if room.gameState = .active then room
  else
    let q := { pickRandomQuestion qraw idx now with
               startTime := some now, maxTime := some MAX_TIME }
    { room with
      currentQuestion := some q
      selections := []
      gameState := .active
      lastActive := now
      roundEnded := false }

/-- The push `socket.on('select_option')` handler for user `uid` at
instant `now`: no-op unless a question is live, the room is `'active'`,
and the player has not answered this round; records the selection and —
when every player in `room.players` has now answered — resolves the round
immediately through the duplicated early-resolution block.  The second
component is the `show_result` payload when early resolution fired. -/
def pushSelectOption (room : Room) (uid : String) (optionIndex : Int) (now : Int) :
    Room × Option ShowResult :=
  if room.currentQuestion.isNone || room.gameState ≠ .active then (room, none)
  else if (aget room.selections uid).isSome then (room, none)
  else
    let room1 : Room :=
      { room with selections := upsert room.selections uid optionIndex, lastActive := now }
    let connectedPlayerCount := room1.players.length
    let answeredCount := room1.selections.length
    if answeredCount ≥ connectedPlayerCount then
      match resolveRoundEarly room1 now with
      | some (room2, res) => (room2, some res)
      | none => (room1, none)
    else (room1, none)

/-- Discord user identity delivered by the token-validation collaborator. -/
structure UserInfo where
  id : String
  username : String
  avatar : Option String
deriving DecidableEq, Repr

/-- Payload of the `you_joined` event sent to a freshly connected socket. -/
structure YouJoined where
  playerId : String
  isHost : Bool
deriving DecidableEq, Repr

/-- The room object the `io.use` auth middleware creates when the channel
has no room yet: `hostSocketId: null`. -/
def socketMiddlewareRoomInit : Room := {}

/-- The (unreachable) room creation inside `io.on('connection')`, which
would make the connecting socket host: it only runs if the room is absent,
but the middleware has always created it by then. -/
def connectionFallbackRoomInit (socketId : String) : Room :=
  { hostSocketId := some socketId }

/-- The socket connect/join flow for a non-reconnecting client: the
middleware creates the room if needed (`hostSocketId: null`), the
connection handler then upserts the player (preserving a prior score by
id), rebuilds the `scores` view from `players`, and answers `you_joined`
with `isHost: room.hostSocketId === socket.id`. -/
def joinFlow (store : List (String × Room)) (channelId : String) (user : UserInfo)
    (socketId : String) (now : Int) : List (String × Room) × YouJoined :=
  let store1 :=
    if (aget store channelId).isSome then store
    else upsert store channelId socketMiddlewareRoomInit
  let room0 :=
    match aget store1 channelId with
    | some r => r
    | none => connectionFallbackRoomInit socketId
  let prevScore := ((aget room0.players user.id).map (fun p => p.score)).getD 0
  let players' := upsert room0.players user.id
    ⟨user.id, user.username, prevScore, socketId, user.avatar⟩
  let scores' := players'.map (fun kv => (kv.1, kv.2.score))
  let room1 : Room := { room0 with players := players', scores := scores', lastActive := now }
  let isHost := room1.hostSocketId == some socketId
  (upsert store1 channelId room1, ⟨user.id, isHost⟩)

/-- The push `socket.on('disconnect')` handler: removes the player and its
score entry; reassigns the host (to the head of the adapter's socket list,
passed as `socketsInRoom`) only when the departing socket *was* the host;
deletes the room when no players remain. -/
def disconnectFlow (store : List (String × Room)) (channelId : String) (uid : String)
    (socketId : String) (socketsInRoom : List String) (now : Int) :
    List (String × Room) :=
  match aget store channelId with
  | none => store
  | some room =>
    let room1 : Room :=
      { room with
        players := removeKey room.players uid
        scores := removeKey room.scores uid
        lastActive := now }
    let room2 : Room :=
      if room1.hostSocketId = some socketId then
        { room1 with hostSocketId := socketsInRoom.head? }
      else room1
    if room2.players = [] then removeKey store channelId
    else upsert store channelId room2

/-- An entry archived (and broadcast as `previousScores`) by the daily
reset: `{id, name, score, avatar}`. -/
structure ArchiveEntry where
  id : String
  name : String
  score : Int
  avatar : Option String
deriving DecidableEq, Repr

/-- The per-room entry list built twice by `resetLeaderboards` (once for
`StorageService.archiveLeaderboard`, once for the `leaderboard_reset`
notification), both from the pre-reset `room.players`. -/
def archiveEntriesOf (room : Room) : List ArchiveEntry :=
  room.players.map (fun kv => ⟨kv.1, kv.2.name, kv.2.score, kv.2.avatar⟩)

/-- A room after the reset loop body ran on it: every player's score is
set to 0 and the `scores` view is replaced by a fresh empty object. -/
def resetRoom (room : Room) : Room :=
  { room with
    players := room.players.map (fun kv => (kv.1, { kv.2 with score := 0 }))
    scores := [] }

/-- Everything observable `resetLeaderboards` produces: the
`archiveLeaderboard` calls of the first loop, the mutated rooms, the
`leaderboard_reset` notifications (carrying the pre-reset scores) and the
`room_state` roster broadcasts (carrying the zeroed roster) of the second
loop. -/
structure ResetOutcome where
  archiveCalls : List (String × List ArchiveEntry)
  rooms : List (String × Room)
  resetNotifications : List (String × List ArchiveEntry)
  rosterBroadcasts : List (String × List ArchiveEntry)
deriving DecidableEq, Repr

/-- `resetLeaderboards()` over the current room store.  The first loop
archives every room's players with their current (pre-reset) scores; the
second loop re-reads the still-unreset players of each room for the
notification, then zeroes the scores, empties the `scores` view, and
broadcasts the notification plus a roster whose entries carry `score: 0`. -/
def resetLeaderboards (rooms : List (String × Room)) : ResetOutcome :=
  { archiveCalls := rooms.map (fun kv => (kv.1, archiveEntriesOf kv.2))
    rooms := rooms.map (fun kv => (kv.1, resetRoom kv.2))
    resetNotifications := rooms.map (fun kv => (kv.1, archiveEntriesOf kv.2))
    rosterBroadcasts := rooms.map (fun kv =>
      (kv.1, (resetRoom kv.2).players.map (fun p => ⟨p.2.id, p.2.name, 0, p.2.avatar⟩))) }

/-! ### Association-list lemmas -/

theorem aget_upsert_self {β : Type} (l : List (String × β)) (k : String) (v : β) :
    aget (upsert l k v) k = some v := by
  induction l with
  | nil => simp [aget, upsert]
  | cons hd tl ih =>
    by_cases h : hd.1 = k
    · simp [aget, upsert, h]
    · simp [aget, upsert, h, ih]

theorem aget_upsert_ne {β : Type} (l : List (String × β)) (k k' : String) (v : β)
    (h : k' ≠ k) : aget (upsert l k v) k' = aget l k' := by
  induction l with
  | nil => simp [aget, upsert, Ne.symm h]
  | cons hd tl ih =>
    by_cases hh : hd.1 = k
    · subst hh
      simp [aget, upsert, Ne.symm h]
    · simp only [upsert, if_neg hh]
      simp [aget, ih]

theorem aget_map_snd {β γ : Type} (l : List (String × β)) (f : β → γ) (k : String) :
    aget (l.map (fun kv => (kv.1, f kv.2))) k = (aget l k).map f := by
  induction l with
  | nil => simp [aget]
  | cons hd tl ih =>
    by_cases h : hd.1 = k
    · simp [aget, h]
    · simp [aget, h, ih]

theorem mem_keysOf_upsert {β : Type} (l : List (String × β)) (k a : String) (v : β) :
    a ∈ keysOf (upsert l k v) ↔ a ∈ keysOf l ∨ a = k := by
  induction l with
  | nil => simp [upsert, keysOf]
  | cons hd tl ih =>
    obtain ⟨k1, v1⟩ := hd
    by_cases hh : k1 = k
    · subst hh
      simp [upsert, keysOf]
      tauto
    · simp only [upsert, if_neg hh, keysOf, List.map_cons, List.mem_cons]
      rw [show (a ∈ List.map Prod.fst (upsert tl k v)) = (a ∈ keysOf (upsert tl k v)) from rfl, ih]
      tauto

theorem keysOf_upsert_nodup {β : Type} (l : List (String × β)) (k : String) (v : β)
    (h : (keysOf l).Nodup) : (keysOf (upsert l k v)).Nodup := by
  induction l with
  | nil => simp [upsert, keysOf]
  | cons hd tl ih =>
    obtain ⟨k1, v1⟩ := hd
    by_cases hh : k1 = k
    · subst hh
      simpa [upsert, keysOf] using h
    · simp only [keysOf, List.map_cons, List.nodup_cons] at h
      simp only [upsert, if_neg hh, keysOf, List.map_cons, List.nodup_cons]
      refine ⟨?_, ih h.2⟩
      rw [show (k1 ∈ List.map Prod.fst (upsert tl k v)) = (k1 ∈ keysOf (upsert tl k v)) from rfl,
        mem_keysOf_upsert]
      push_neg
      exact ⟨h.1, hh⟩

theorem aget_eq_none_of_not_mem {β : Type} (l : List (String × β)) (k : String)
    (h : k ∉ keysOf l) : aget l k = none := by
  induction l with
  | nil => rfl
  | cons hd tl ih =>
    obtain ⟨k1, v1⟩ := hd
    simp only [keysOf, List.map_cons, List.mem_cons, not_or] at h
    obtain ⟨h1, h2⟩ := h
    simp only [aget, if_neg (Ne.symm h1)]
    exact ih h2

/-! ### Scoring-function lemmas (claim C6) -/

theorem calculatePointsFromTime_nonpos (t : ℚ) (h : t ≤ 0) :
    calculatePointsFromTime (some t) = 0 := by
  simp [calculatePointsFromTime, if_pos h]

theorem calculatePointsFromTime_undefined : calculatePointsFromTime none = 0 := rfl

/-- For positive `timeTaken` the two clamps in the source are inert and the
function is `Math.round(150 * (max(0, 15 - t) / 15)^2)`. -/
theorem calculatePointsFromTime_of_pos (t : ℚ) (h : 0 < t) :
    calculatePointsFromTime (some t) = jsRound (150 * ((max 0 (15 - t)) / 15) ^ 2) := by
  have hcast : ((MAX_TIME : Int) : ℚ) = 15 := by norm_num [MAX_TIME]
  have hle : max 0 (15 - t) ≤ (15 : ℚ) := max_le (by norm_num) (by linarith)
  have h1 : max 0 (15 - t) / 15 ≤ (1 : ℚ) := div_le_one_of_le₀ hle (by norm_num)
  have h2 : (0 : ℚ) ≤ max 0 (15 - t) / 15 := div_nonneg (le_max_left _ _) (by norm_num)
  simp only [calculatePointsFromTime, if_neg (not_le.mpr h), hcast, MAX_POINTS,
    SCORING_EXPONENT, min_eq_right h1, max_eq_right h2]

theorem calculatePointsFromTime_antitone (t1 t2 : ℚ) (h1 : 0 < t1) (h12 : t1 ≤ t2) :
    calculatePointsFromTime (some t2) ≤ calculatePointsFromTime (some t1) := by
  have h2 : 0 < t2 := lt_of_lt_of_le h1 h12
  rw [calculatePointsFromTime_of_pos t1 h1, calculatePointsFromTime_of_pos t2 h2]
  apply Int.floor_le_floor
  have hL : max 0 (15 - t2) ≤ max 0 ((15 : ℚ) - t1) := max_le_max le_rfl (by linarith)
  have hd : max 0 (15 - t2) / 15 ≤ max 0 ((15 : ℚ) - t1) / 15 :=
    (div_le_div_iff_of_pos_right (by norm_num)).mpr hL
  have hd0 : (0 : ℚ) ≤ max 0 (15 - t2) / 15 := div_nonneg (le_max_left _ _) (by norm_num)
  have hsq : (max 0 (15 - t2) / 15) ^ 2 ≤ (max 0 ((15 : ℚ) - t1) / 15) ^ 2 :=
    pow_le_pow_left₀ hd0 hd 2
  have := mul_le_mul_of_nonneg_left hsq (by norm_num : (0 : ℚ) ≤ 150)
  linarith

theorem calculatePointsFromTime_late (t : ℚ) (h : (15 : ℚ) ≤ t) :
    calculatePointsFromTime (some t) = 0 := by
  rw [calculatePointsFromTime_of_pos t (by linarith)]
  rw [max_eq_left (by linarith : 15 - t ≤ (0 : ℚ))]
  norm_num [jsRound]

theorem calculatePointsFromTime_at_two : calculatePointsFromTime (some 2) = 113 := by
  rw [calculatePointsFromTime_of_pos 2 (by norm_num)]
  norm_num [jsRound]

theorem calculatePointsFromTime_at_ten : calculatePointsFromTime (some 10) = 17 := by
  rw [calculatePointsFromTime_of_pos 10 (by norm_num)]
  norm_num [jsRound]

/-- C6, counterexample: the claim asserts both that non-positive
`timeTaken` maps to 0 and that `timeTaken = 0` yields `MAX_POINTS = 150`;
the code's `!timeTaken || timeTaken <= 0` guard wins, so
`calculatePointsFromTime(0) = 0 ≠ 150`. -/
theorem C6_calculatePoints_cex :
    calculatePointsFromTime (some 0) = 0 ∧ calculatePointsFromTime (some 0) ≠ 150 := by
  refine ⟨rfl, ?_⟩
  intro h
  rw [show calculatePointsFromTime (some 0) = 0 from rfl] at h
  exact absurd h (by decide)

/-- C6 (amended): `calculatePointsFromTime` maps missing or non-positive
`timeTaken` (including `timeTaken = 0`, where it returns 0, not
MAX_POINTS) to 0; for positive `timeTaken` it returns
`round(150 * (max(0, 15 - timeTaken) / 15)^2)`; it is monotonically
non-increasing on positive `timeTaken`; it is 0 for `timeTaken ≥ 15`;
and it returns 113 at `timeTaken = 2` and 17 at `timeTaken = 10`. -/
theorem C6_calculatePoints_amended :
    (∀ t : ℚ, t ≤ 0 → calculatePointsFromTime (some t) = 0) ∧
    calculatePointsFromTime none = 0 ∧
    (∀ t : ℚ, 0 < t →
      calculatePointsFromTime (some t) = jsRound (150 * ((max 0 (15 - t)) / 15) ^ 2)) ∧
    (∀ t1 t2 : ℚ, 0 < t1 → t1 ≤ t2 →
      calculatePointsFromTime (some t2) ≤ calculatePointsFromTime (some t1)) ∧
    (∀ t : ℚ, (15 : ℚ) ≤ t → calculatePointsFromTime (some t) = 0) ∧
    calculatePointsFromTime (some 2) = 113 ∧
    calculatePointsFromTime (some 10) = 17 :=
  ⟨calculatePointsFromTime_nonpos, calculatePointsFromTime_undefined,
   calculatePointsFromTime_of_pos, calculatePointsFromTime_antitone,
   calculatePointsFromTime_late, calculatePointsFromTime_at_two,
   calculatePointsFromTime_at_ten⟩

/-- Witness for `C6_calculatePoints_amended` at concrete inputs. -/
theorem C6_calculatePoints_witness :
    calculatePointsFromTime (some (-1)) = 0 ∧
    calculatePointsFromTime (some 20) = 0 ∧
    calculatePointsFromTime (some 10) ≤ calculatePointsFromTime (some 2) :=
  ⟨C6_calculatePoints_amended.1 (-1) (by norm_num),
   C6_calculatePoints_amended.2.2.2.2.1 20 (by norm_num),
   C6_calculatePoints_amended.2.2.2.1 2 10 (by norm_num) (by norm_num)⟩

/-! ### Polling `end_round` idempotence (claim C1) -/

/-- With `roundEnded` already set, `end_round` only replays the cached
round data and leaves the room untouched. -/
theorem endRoundHttp_of_ended (s : Room) (h : s.roundEnded = true) :
    endRoundHttp s =
      (s,
        { selections := s.lastSelections.getD []
          scores := s.scores
          playerNames := s.playerNames
          correctAnswer := s.lastCorrectAnswer }) := by
  simp [endRoundHttp, h]

/-- A second `end_round` call replays the first call's response exactly
and leaves the settled room state unchanged. -/
theorem endRoundHttp_replay (room : Room) (h : room.roundEnded = false) :
    endRoundHttp (endRoundHttp room).1 = endRoundHttp room := by
  simp [endRoundHttp, h]

/-- C1: once `end_round` has settled a round (`roundEnded`), every
subsequent `end_round` call for that round returns exactly the first
call's cached result — the same `selections`, `scores` and
`correctAnswer` — and performs no further state change (in particular no
score is re-applied): the second call's full output, response and state,
equals the first call's, and any room with `roundEnded` set is left
exactly as it is. -/
theorem C1_endRound_idempotent (room : Room) (h : room.roundEnded = false) :
    endRoundHttp (endRoundHttp room).1 = endRoundHttp room ∧
    ∀ s : Room, s.roundEnded = true → (endRoundHttp s).1 = s :=
  ⟨endRoundHttp_replay room h, fun s hs => by rw [endRoundHttp_of_ended s hs]⟩

/-- A concrete settled round used by the C1 witness: one correct and one
wrong selection over a two-option trivia question. -/
def roomC1 : Room :=
  { roundEnded := false
    currentQuestion := some
      { question := some "Largest planet?"
        options := some ["A) Jupiter", "B) Mars"]
        answer := some "A"
        qid := some "0" }
    currentSelections :=
      [("alice", ⟨some 0, some 2, 1000⟩), ("bob", ⟨some 1, some 3, 1500⟩)]
    scores := [("alice", 10)]
    playerNames := [("alice", "Alice"), ("bob", "Bob")] }

/-- Witness for `C1_endRound_idempotent` at the concrete room `roomC1`. -/
theorem C1_endRound_idempotent_witness :
    endRoundHttp (endRoundHttp roomC1).1 = endRoundHttp roomC1 :=
  (C1_endRound_idempotent roomC1 rfl).1

/-! ### Polling `start_question` synchronization (claim C4) -/

/-- C4: a polling `start_question` without `forceNew` on a room that
already holds a question returns that stored question unchanged (the room
is not mutated and nothing new is generated), with `timeLeft` derived from
the stored `questionStartTime`; and a first call that generates a question
followed immediately by a second call returns the same question with a
`timeLeft` no larger than the first call's `MAX_TIME`. -/
theorem C4_startQuestion_sync :
    (∀ (room : Room) (q : Question) (now : Int) (freshQ : Question),
      room.currentQuestion = some q →
      (startQuestionHttp room false now freshQ).1 = room ∧
      (startQuestionHttp room false now freshQ).2 =
        .existing q
          (max 0 (MAX_TIME - Int.fdiv (now - jsNumOr room.questionStartTime now) 1000))
          (jsNumOr room.questionStartTime now)
          (room.roundEnded ||
            decide (max 0 (MAX_TIME - Int.fdiv (now - jsNumOr room.questionStartTime now) 1000) ≤ 0))) ∧
    (∀ (room : Room) (now1 now2 : Int) (freshQ freshQ2 : Question),
      room.currentQuestion = none → room.generatingQuestion = false →
      0 < now1 → now1 ≤ now2 →
      (startQuestionHttp room false now1 freshQ).2 = .fresh freshQ MAX_TIME now1 ∧
      ∃ timeLeft2 showResult2,
        (startQuestionHttp (startQuestionHttp room false now1 freshQ).1 false now2 freshQ2).2 =
          .existing freshQ timeLeft2 now1 showResult2 ∧ timeLeft2 ≤ MAX_TIME) := by
  constructor
  · intro room q now freshQ hq
    constructor
    · simp [startQuestionHttp, hq]
    · simp [startQuestionHttp, hq]
  · intro room now1 now2 freshQ freshQ2 hq hg h1 h12
    constructor
    · simp [startQuestionHttp, hq, hg]
    · have hstate : (startQuestionHttp room false now1 freshQ).1 =
        { room with
          currentQuestion := some freshQ
          questionStartTime := some now1
          lastActive := now1
          gameState := .playing
          roundEnded := false
          currentSelections := []
          generatingQuestion := false } := by
        simp [startQuestionHttp, hq, hg]
      refine ⟨max 0 (MAX_TIME - Int.fdiv (now2 - now1) 1000),
        false || decide (max 0 (MAX_TIME - Int.fdiv (now2 - now1) 1000) ≤ 0), ?_, ?_⟩
      · rw [hstate]
        have hst : jsNumOr (some now1) now2 = now1 := by
          simp only [jsNumOr, if_neg (by omega : ¬ now1 = 0)]
        simp [startQuestionHttp, hst]
      · have hfd : 0 ≤ Int.fdiv (now2 - now1) 1000 :=
          Int.fdiv_nonneg (by omega) (by norm_num)
        have : MAX_TIME - Int.fdiv (now2 - now1) 1000 ≤ MAX_TIME := by omega
        exact max_le (by norm_num [MAX_TIME]) this

/-- Concrete inputs for the C4 witness. -/
def roomC4 : Room := {}

/-- A concrete freshly drawn question for the C4 witness. -/
def qC4 : Question :=
  { question := some "Largest planet?"
    options := some ["A) Jupiter", "B) Mars"]
    answer := some "A"
    qid := some "0" }

/-- Witness for `C4_startQuestion_sync`: first call at `t = 1000` on an
empty room generates, an immediate second call at `t = 3000` returns the
same question with `timeLeft ≤ MAX_TIME`. -/
theorem C4_startQuestion_sync_witness :
    (startQuestionHttp roomC4 false 1000 qC4).2 = .fresh qC4 MAX_TIME 1000 ∧
    ∃ timeLeft2 showResult2,
      (startQuestionHttp (startQuestionHttp roomC4 false 1000 qC4).1 false 3000 qC4).2 =
        .existing qC4 timeLeft2 1000 showResult2 ∧ timeLeft2 ≤ MAX_TIME :=
  C4_startQuestion_sync.2 roomC4 1000 3000 qC4 qC4 rfl rfl (by decide) (by decide)

/-! ### Scoring-loop lemmas -/

/-- A non-matching scoring iteration only materializes a zero entry, so
every score read through the `|| 0` convention is unchanged. -/
theorem agetD_upsert_self {β : Type} (l : List (String × β)) (k : String) (v d : β) :
    agetD (upsert l k v) k d = v := by
  simp [agetD, aget_upsert_self]

theorem agetD_upsert_ne {β : Type} (l : List (String × β)) (k k' : String) (v : β) (d : β)
    (h : k' ≠ k) : agetD (upsert l k v) k' d = agetD l k' d := by
  simp [agetD, aget_upsert_ne _ _ _ _ h]

/-- The zero-materialization step (`if (!scores[p]) scores[p] = 0`) never
changes a score read through the `|| 0` convention. -/
theorem agetD_materialize {β : Type} [Zero β] [DecidableEq β] (sc : List (String × β))
    (k p : String) :
    agetD (if agetD sc k 0 = 0 then upsert sc k 0 else sc) p 0 = agetD sc p 0 := by
  by_cases hk : agetD sc k 0 = 0
  · rw [if_pos hk]
    by_cases hp : p = k
    · subst hp
      rw [agetD_upsert_self, hk]
    · rw [agetD_upsert_ne _ _ _ _ _ hp]
  · rw [if_neg hk]

theorem agetD_scoreOne_of_no_match (q : Question) (sc : List (String × Int)) (k : String)
    (sel : Selection) (h : (sel.optionIndex == correctIndexOf q) = false) (p : String) :
    agetD (scoreOne q sc k sel) p 0 = agetD sc p 0 := by
  simp only [scoreOne, h, Bool.false_eq_true, if_false]
  exact agetD_materialize sc k p

/-- A scoring iteration for one player leaves every other player's
score unchanged. -/
theorem agetD_scoreOne_other (q : Question) (sc : List (String × Int)) (k : String)
    (sel : Selection) (p : String) (hp : p ≠ k) :
    agetD (scoreOne q sc k sel) p 0 = agetD sc p 0 := by
  simp only [scoreOne]
  by_cases hm : (sel.optionIndex == correctIndexOf q) = true
  · simp only [hm, if_true]
    rw [agetD_upsert_ne _ _ _ _ _ hp]
    exact agetD_materialize sc k p
  · simp only [Bool.not_eq_true] at hm
    simp only [hm, Bool.false_eq_true, if_false]
    exact agetD_materialize sc k p

/-- The round payout one scored selection contributes:
`calculatePointsFromTime(timeTaken)` when the selection strictly equals
the computed correct index, 0 otherwise (0 for no selection at all). -/
def payoutOf (q : Question) : Option Selection → Int
  | some sel =>
    if sel.optionIndex == correctIndexOf q then calculatePointsFromTime sel.timeTaken else 0
  | none => 0

/-- A scoring iteration adds exactly the payout to its own player. -/
theorem agetD_scoreOne_self (q : Question) (sc : List (String × Int)) (k : String)
    (sel : Selection) :
    agetD (scoreOne q sc k sel) k 0 = agetD sc k 0 + payoutOf q (some sel) := by
  simp only [scoreOne, payoutOf]
  by_cases hm : (sel.optionIndex == correctIndexOf q) = true
  · simp only [hm, if_true]
    rw [agetD_upsert_self]
    rw [agetD_materialize sc k k]
  · simp only [Bool.not_eq_true] at hm
    simp only [hm, Bool.false_eq_true, if_false]
    rw [agetD_materialize sc k k, add_zero]

/-- The scoring loop never touches players outside the selections map. -/
theorem agetD_applyScoring_not_mem (q : Question) (sels : List (String × Selection))
    (pid : String) (h : pid ∉ keysOf sels) :
    ∀ sc, agetD (applyScoring q sc sels) pid 0 = agetD sc pid 0 := by
  induction sels with
  | nil => intro sc; rfl
  | cons hd tl ih =>
    intro sc
    obtain ⟨k1, sel1⟩ := hd
    simp only [keysOf, List.map_cons, List.mem_cons, not_or] at h
    rw [show applyScoring q sc ((k1, sel1) :: tl) = applyScoring q (scoreOne q sc k1 sel1) tl
      from rfl]
    rw [ih h.2 (scoreOne q sc k1 sel1)]
    exact agetD_scoreOne_other q sc k1 sel1 pid h.1

/-- Over a selections map with no duplicate keys, the scoring loop adds to
each player exactly the payout of that player's (single) selection. -/
theorem agetD_applyScoring (q : Question) (sels : List (String × Selection))
    (hN : (keysOf sels).Nodup) (pid : String) :
    ∀ sc, agetD (applyScoring q sc sels) pid 0 = agetD sc pid 0 + payoutOf q (aget sels pid) := by
  induction sels with
  | nil => intro sc; simp [applyScoring, aget, payoutOf]
  | cons hd tl ih =>
    intro sc
    obtain ⟨k1, sel1⟩ := hd
    simp only [keysOf, List.map_cons, List.nodup_cons] at hN
    rw [show applyScoring q sc ((k1, sel1) :: tl) = applyScoring q (scoreOne q sc k1 sel1) tl
      from rfl]
    by_cases hp : pid = k1
    · subst hp
      rw [agetD_applyScoring_not_mem q tl pid hN.1 (scoreOne q sc pid sel1)]
      rw [agetD_scoreOne_self q sc pid sel1]
      simp [aget]
    · rw [ih hN.2 (scoreOne q sc k1 sel1)]
      rw [agetD_scoreOne_other q sc k1 sel1 pid hp]
      simp [aget, Ne.symm hp]

/-- What a first (settling) `end_round` call does to one player's score. -/
theorem endRoundHttp_scores_agetD (room : Room) (q : Question)
    (hq : room.currentQuestion = some q) (hN : (keysOf room.currentSelections).Nodup)
    (hE : room.roundEnded = false) (pid : String) :
    agetD (endRoundHttp room).1.scores pid 0
      = agetD room.scores pid 0 + payoutOf q (aget room.currentSelections pid) := by
  simp only [endRoundHttp, hE, Bool.false_eq_true, if_false, hq]
  exact agetD_applyScoring q room.currentSelections hN pid room.scores

/-! ### Card questions award no points (claim C10) -/

/-- A card question (no `options`) has no computable correct index. -/
theorem correctIndexOf_card (q : Question) (h : q.options = none) :
    correctIndexOf q = none := by
  simp [correctIndexOf, h]

set_option maxRecDepth 4000 in
/-- The card branch of `getRandomQuestion` really produces such a
question: `isCard` with no `options` and no `answer`. -/
theorem getRandomQuestion_card_shape (idx : ℕ) (pool : List RawTrivia) :
    (getRandomQuestion true idx pool).isCard = true ∧
    (getRandomQuestion true idx pool).options = none ∧
    (getRandomQuestion true idx pool).answer = none := by
  constructor
  · rfl
  · constructor <;> rfl

/-- When the question has no computable correct index and every selection
has a defined `optionIndex`, the whole scoring loop changes no score. -/
theorem agetD_applyScoring_no_match (q : Question) (hnone : correctIndexOf q = none)
    (sels : List (String × Selection)) (hdef : ∀ kv ∈ sels, kv.2.optionIndex.isSome) :
    ∀ sc pid, agetD (applyScoring q sc sels) pid 0 = agetD sc pid 0 := by
  induction sels with
  | nil => intro sc pid; rfl
  | cons hd tl ih =>
    intro sc pid
    obtain ⟨k1, sel1⟩ := hd
    have hs : sel1.optionIndex.isSome := hdef (k1, sel1) (List.mem_cons_self _ _)
    have hm : (sel1.optionIndex == correctIndexOf q) = false := by
      rw [hnone]
      cases ho : sel1.optionIndex with
      | none => rw [ho] at hs; simp at hs
      | some v => rfl
    rw [show applyScoring q sc ((k1, sel1) :: tl) = applyScoring q (scoreOne q sc k1 sel1) tl
      from rfl]
    rw [ih (fun kv hkv => hdef kv (List.mem_cons_of_mem _ hkv)) (scoreOne q sc k1 sel1) pid]
    exact agetD_scoreOne_of_no_match q sc k1 sel1 hm pid

/-- C10: with a card question (`isCard`, no `options`/`answer` fields)
live, `end_round` leaves every player's score unchanged (scores are read
through the code's `|| 0` convention, since the loop may materialize an
explicit 0 entry), provided every recorded selection carries a defined
numeric `optionIndex`: no defined index strictly equals the `undefined`
correct index, so no points are awarded. -/
theorem C10_card_round_scores_unchanged (room : Room) (q : Question)
    (hq : room.currentQuestion = some q) (hcard : q.isCard = true)
    (hopts : q.options = none) (hans : q.answer = none)
    (hdef : ∀ kv ∈ room.currentSelections, kv.2.optionIndex.isSome) :
    ∀ pid, agetD (endRoundHttp room).1.scores pid 0 = agetD room.scores pid 0 := by
  intro pid
  cases hE : room.roundEnded with
  | true => rw [endRoundHttp_of_ended room hE]
  | false =>
    simp only [endRoundHttp, hE, Bool.false_eq_true, if_false, hq]
    exact agetD_applyScoring_no_match q (correctIndexOf_card q hopts)
      room.currentSelections hdef room.scores pid

/-- A concrete room with a live card question and one defined selection
for the C10 witness. -/
def roomC10 : Room :=
  { currentQuestion := some (getRandomQuestion true 0 [])
    currentSelections := [("alice", ⟨some 0, some 2, 7⟩)]
    scores := [("alice", 5)] }

set_option maxRecDepth 4000 in
/-- Witness for `C10_card_round_scores_unchanged` at `roomC10`. -/
theorem C10_card_round_scores_unchanged_witness :
    agetD (endRoundHttp roomC10).1.scores "alice" 0 = agetD roomC10.scores "alice" 0 :=
  C10_card_round_scores_unchanged roomC10 (getRandomQuestion true 0 []) rfl rfl rfl rfl
    (by
      intro kv h
      simp only [roomC10, List.mem_singleton] at h
      subst h
      rfl)
    "alice"

/-! ### At-most-once scoring over arbitrary polling event sequences (claim C2) -/

/-- One polling-gateway game event for a fixed room and round:
a `select_option` request (with its client payload and arrival instant) or
an `end_round` request. -/
inductive PollEv where
  | select (playerId : String) (optionIndex : Option Int) (timeTaken : Option ℚ)
      (playerName : Option String) (now : Int)
  | endRound
deriving DecidableEq, Repr

/-- Dispatch of one polling event through the `/api/game-event` handler. -/
def stepPoll (room : Room) : PollEv → Room
  | .select pid oi tt pn now => selectOptionHttp room pid oi tt pn now
  | .endRound => (endRoundHttp room).1

/-- A whole sequence of polling events processed in arrival order. -/
def runPoll (room : Room) (evs : List PollEv) : Room := evs.foldl stepPoll room

/-- Whether an event is an `end_round` request. -/
def isEnd : PollEv → Bool
  | .endRound => true
  | _ => false

/-- The selection standing for `pid` at the moment the first `end_round`
of the sequence arrives (the last selection `pid` submitted before it,
or the initial one), `none` if there is none. -/
def effSel (init : List (String × Selection)) (evs : List PollEv) (pid : String) :
    Option Selection :=
  match evs with
  | [] => aget init pid
  | .select p oi tt _ now :: rest => effSel (upsert init p ⟨oi, tt, now⟩) rest pid
  | .endRound :: _ => aget init pid

/-- `select_option` never touches `scores`, `roundEnded` or
`currentQuestion`, and upserts the selection. -/
theorem selectOptionHttp_fields (room : Room) (pid : String) (oi : Option Int)
    (tt : Option ℚ) (pn : Option String) (now : Int) :
    (selectOptionHttp room pid oi tt pn now).scores = room.scores ∧
    (selectOptionHttp room pid oi tt pn now).roundEnded = room.roundEnded ∧
    (selectOptionHttp room pid oi tt pn now).currentQuestion = room.currentQuestion ∧
    (selectOptionHttp room pid oi tt pn now).currentSelections =
      upsert room.currentSelections pid ⟨oi, tt, now⟩ :=
  ⟨rfl, rfl, rfl, rfl⟩

/-- Once a round is settled, no further polling event of the same round
can change any score (selects never touch scores, and repeated
`end_round` calls replay the cache without mutating). -/
theorem runPoll_scores_of_roundEnded (evs : List PollEv) :
    ∀ room : Room, room.roundEnded = true → (runPoll room evs).scores = room.scores := by
  induction evs with
  | nil => intro room _; rfl
  | cons e rest ih =>
    intro room h
    cases e with
    | select pid oi tt pn now =>
      rw [show runPoll room (.select pid oi tt pn now :: rest)
          = runPoll (selectOptionHttp room pid oi tt pn now) rest from rfl]
      rw [ih _ (by simpa [selectOptionHttp] using h)]
      rfl
    | endRound =>
      have hfix : (endRoundHttp room).1 = room := by rw [endRoundHttp_of_ended room h]
      rw [show runPoll room (.endRound :: rest) = runPoll (endRoundHttp room).1 rest from rfl,
        hfix]
      exact ih room h

/-- Claim C2 core, in fold form: starting from an unsettled round, running
any sequence of `select_option` / `end_round` events changes a player's
cumulative score by the payout of the selection standing at the first
`end_round` — exactly once — and by nothing at all if no `end_round`
occurs. -/
theorem runPoll_scores_agetD (q : Question) (evs : List PollEv) :
    ∀ room : Room, room.roundEnded = false → room.currentQuestion = some q →
    (keysOf room.currentSelections).Nodup → ∀ pid,
    agetD (runPoll room evs).scores pid 0
      = agetD room.scores pid 0 +
        (if evs.any isEnd then payoutOf q (effSel room.currentSelections evs pid) else 0) := by
  induction evs with
  | nil =>
    intro room _ _ _ pid
    simp [runPoll, List.any_nil]
  | cons e rest ih =>
    intro room h1 h2 h3 pid
    cases e with
    | select p oi tt pn now =>
      rw [show runPoll room (.select p oi tt pn now :: rest)
          = runPoll (selectOptionHttp room p oi tt pn now) rest from rfl]
      rw [ih (selectOptionHttp room p oi tt pn now)
        (by simpa [selectOptionHttp] using h1)
        (by simpa [selectOptionHttp] using h2)
        (by
          rw [(selectOptionHttp_fields room p oi tt pn now).2.2.2]
          exact keysOf_upsert_nodup _ _ _ h3)
        pid]
      rw [(selectOptionHttp_fields room p oi tt pn now).1,
        (selectOptionHttp_fields room p oi tt pn now).2.2.2]
      rw [show ((PollEv.select p oi tt pn now :: rest).any isEnd) = rest.any isEnd by
        simp [isEnd]]
      rw [show effSel room.currentSelections (.select p oi tt pn now :: rest) pid
          = effSel (upsert room.currentSelections p ⟨oi, tt, now⟩) rest pid from rfl]
    | endRound =>
      have hrE : (endRoundHttp room).1.roundEnded = true := by
        simp [endRoundHttp, h1]
      rw [show runPoll room (.endRound :: rest) = runPoll (endRoundHttp room).1 rest from rfl]
      rw [runPoll_scores_of_roundEnded rest _ hrE]
      rw [endRoundHttp_scores_agetD room q h2 h3 h1 pid]
      rw [show ((PollEv.endRound :: rest).any isEnd) = true by simp [isEnd]]
      rw [show effSel room.currentSelections (.endRound :: rest) pid
          = aget room.currentSelections pid from rfl]
      simp

/-- C2: on the polling path, for a freshly started round (no
`roundEnded`, empty selections) and any interleaving of `select_option`
and `end_round` requests, each player's cumulative score changes by
exactly the payout of the player's last selection standing at the first
`end_round` (`calculatePointsFromTime` of its `timeTaken` when it matches
the correct index, 0 otherwise), applied exactly once; with no
`end_round` at all, or for a player without a standing selection, the
score does not change. -/
theorem C2_at_most_once_scoring (q : Question) (room : Room) (evs : List PollEv) (pid : String)
    (h1 : room.roundEnded = false) (h2 : room.currentQuestion = some q)
    (h3 : room.currentSelections = []) :
    agetD (runPoll room evs).scores pid 0
      = agetD room.scores pid 0 +
        (if evs.any isEnd then payoutOf q (effSel [] evs pid) else 0) := by
  have h := runPoll_scores_agetD q evs room h1 h2 (by rw [h3]; exact List.nodup_nil) pid
  rwa [h3] at h

/-- A fresh-round room for the C2 witness. -/
def roomC2 : Room :=
  { roundEnded := false
    currentQuestion := some
      { question := some "Largest planet?"
        options := some ["A) Jupiter", "B) Mars"]
        answer := some "A"
        qid := some "0" }
    currentSelections := []
    scores := [("alice", 10)] }

/-- An event interleaving for the C2 witness: Alice answers, changes her
answer, the round is ended three times, and a late select arrives. -/
def evsC2 : List PollEv :=
  [.select "alice" (some 1) (some 1) none 1000,
   .select "alice" (some 0) (some 2) none 2000,
   .endRound,
   .endRound,
   .select "alice" (some 0) (some 1) none 3000,
   .endRound]

/-- Witness for `C2_at_most_once_scoring` on the concrete interleaving
`evsC2`: duplicated `end_round`s and a post-settlement select leave the
single applied payout intact. -/
theorem C2_at_most_once_scoring_witness :
    agetD (runPoll roomC2 evsC2).scores "alice" 0
      = agetD roomC2.scores "alice" 0 +
        (if evsC2.any isEnd then
          payoutOf (roomC2.currentQuestion.getD {}) (effSel [] evsC2 "alice") else 0) :=
  C2_at_most_once_scoring (roomC2.currentQuestion.getD {}) roomC2 evsC2 "alice" rfl rfl rfl

/-! ### Push-transport early resolution vs. the round timer (claim C3) -/

/-- If no entry for `k` exists, `upsert` appends one. -/
theorem upsert_length_of_aget_none {β : Type} (l : List (String × β)) (k : String) (v : β)
    (h : aget l k = none) : (upsert l k v).length = l.length + 1 := by
  induction l with
  | nil => rfl
  | cons hd tl ih =>
    obtain ⟨k1, w⟩ := hd
    by_cases hk : k1 = k
    · subst hk
      simp [aget] at h
    · simp only [aget, if_neg hk] at h
      simp [upsert, if_neg hk, ih h]

/-- C3 (amended): the early-resolution block inside `select_option` is the
very same resolution procedure as the timer callback — as a function of
room state *and resolution instant* the two produce identical output; the
revealed `correctIndex` and `selections` do not depend on the instant at
all; and whenever the last connected player's selection arrives,
`select_option` does resolve the round immediately, through that
procedure, at the arrival instant.  (The per-player *scores*, however,
are computed at the resolution instant — see the counterexample — so they
are only identical when both paths resolve at the same instant.) -/
theorem C3_early_resolution_amended :
    (∀ (room : Room) (now : Int), resolveRoundEarly room now = resolveRoundTimer room now) ∧
    (∀ (room : Room) (now1 now2 : Int) (s1 s2 : Room) (r1 r2 : ShowResult),
      resolveRoundEarly room now1 = some (s1, r1) →
      resolveRoundTimer room now2 = some (s2, r2) →
      r1.correctIndex = r2.correctIndex ∧ r1.selections = r2.selections) ∧
    (∀ (room : Room) (uid : String) (oi : Int) (now : Int),
      room.currentQuestion.isSome → room.gameState = .active →
      aget room.selections uid = none →
      room.players.length ≤ room.selections.length + 1 →
      ∃ p, resolveRoundTimer
          { room with selections := upsert room.selections uid oi, lastActive := now } now
          = some p ∧
        pushSelectOption room uid oi now = (p.1, some p.2)) := by
  refine ⟨fun room now => rfl, ?_, ?_⟩
  · intro room now1 now2 s1 s2 r1 r2 h1 h2
    cases hq : room.currentQuestion with
    | none => simp [resolveRoundEarly, hq] at h1
    | some q =>
      simp only [resolveRoundEarly, hq, Option.some.injEq] at h1
      simp only [resolveRoundTimer, hq, Option.some.injEq] at h2
      obtain ⟨hs1, hr1⟩ := Prod.mk.injEq .. ▸ h1
      obtain ⟨hs2, hr2⟩ := Prod.mk.injEq .. ▸ h2
      rw [← hr1, ← hr2]
      exact ⟨rfl, rfl⟩
  · intro room uid oi now hq hg hsel hlen
    obtain ⟨q, hq'⟩ := Option.isSome_iff_exists.mp hq
    cases hres : resolveRoundTimer
        { room with selections := upsert room.selections uid oi, lastActive := now } now with
    | none =>
      exfalso
      simp [resolveRoundTimer, hq'] at hres
    | some p =>
      obtain ⟨p1, p2⟩ := p
      refine ⟨(p1, p2), rfl, ?_⟩
      have hge : (upsert room.selections uid oi).length ≥ room.players.length := by
        rw [upsert_length_of_aget_none _ _ _ hsel]
        exact hlen
      have hearly : resolveRoundEarly
          { room with selections := upsert room.selections uid oi, lastActive := now } now
          = some (p1, p2) := hres
      rw [hq', hg] at hearly
      simp [pushSelectOption, hq', hg, hsel, hge, hearly]

/-- The state for the C3 counterexample: one connected player, an active
two-option question started at epoch-ms 1000000, no selections yet. -/
def roomC3 : Room :=
  { players := [("alice", ⟨"alice", "Alice", 0, "s1", none⟩)]
    hostSocketId := some "s1"
    gameState := .active
    scores := [("alice", 0)]
    currentQuestion := some
      { question := some "Q?"
        options := some ["A) x", "B) y"]
        correctIndex := some 0
        startTime := some 1000000
        maxTime := some 15
        qid := some "q1" }
    selections := [] }

/-- C3, counterexample: Alice (the only connected player) answers the
correct option 2 s into the round, so `select_option` resolves early and
awards `ceil((13/15)*10) = 9`; the natural timer expiry, firing at 15 s
with the very same selection set, awards `ceil((0/15)*10) = 0`.  The two
paths' scores are not identical, refuting the claim as stated. -/
theorem C3_early_resolution_cex :
    (pushSelectOption roomC3 "alice" 0 1002000).2.map (fun r => r.scores)
      = some [("alice", 9)] ∧
    (resolveRoundTimer
        { roomC3 with selections := upsert roomC3.selections "alice" 0, lastActive := 1002000 }
        1015000).map (fun p => p.2.scores)
      = some [("alice", 0)] ∧
    (pushSelectOption roomC3 "alice" 0 1002000).2.map (fun r => r.scores) ≠
      (resolveRoundTimer
        { roomC3 with selections := upsert roomC3.selections "alice" 0, lastActive := 1002000 }
        1015000).map (fun p => p.2.scores) := by
  have hb9 : (⌈((13 : ℚ) / 15) * 10⌉ : Int) = 9 := by
    rw [Int.ceil_eq_iff]
    norm_num
  have hb0 : (⌈((0 : ℚ) / 15) * 10⌉ : Int) = 0 := by norm_num
  refine ⟨?_, ?_, ?_⟩
  · simp [pushSelectOption, roomC3, resolveRoundEarly, computeScores, aget, upsert,
      jsNumOr, MAX_TIME, hb9]
  · simp [resolveRoundTimer, computeScores, roomC3, aget, upsert, jsNumOr, MAX_TIME, hb0]
  · simp [pushSelectOption, roomC3, resolveRoundEarly, resolveRoundTimer, computeScores,
      aget, upsert, jsNumOr, MAX_TIME, hb9, hb0]

/-- Witness for `C3_early_resolution_amended`: with `roomC3`'s single
player answering, the early-resolution branch fires and equals the timer
procedure applied at the same instant. -/
theorem C3_early_resolution_witness :
    ∃ p, resolveRoundTimer
        { roomC3 with selections := upsert roomC3.selections "alice" 0, lastActive := 1002000 }
        1002000 = some p ∧
      pushSelectOption roomC3 "alice" 0 1002000 = (p.1, some p.2) :=
  C3_early_resolution_amended.2.2 roomC3 "alice" 0 1002000 rfl rfl rfl (by decide)

/-! ### Push-transport host assignment (claim C5) -/

/-- The two users of the C5 scenario. -/
def userC5a : UserInfo := ⟨"u1", "Alice", none⟩

/-- Second user of the C5 scenario. -/
def userC5b : UserInfo := ⟨"u2", "Bob", none⟩

/-- The room store after Alice connects to the fresh channel `ch`. -/
def storeC5one : List (String × Room) := (joinFlow [] "ch" userC5a "s1" 100).1

/-- The room store after Bob also connects to `ch`. -/
def storeC5two : List (String × Room) := (joinFlow storeC5one "ch" userC5b "s2" 200).1

/-- The `ch` room with both players connected. -/
def roomC5final : Room := (aget storeC5two "ch").getD {}

/-- C5, failing-input evaluation: on the push transport the `io.use`
middleware creates the room with `hostSocketId: null` *before* the
connection handler runs, so the handler's own room-creation (which would
make the first joiner host) is dead code; the first joiner's `you_joined`
reports `isHost: false`, `hostSocketId` stays `null` after the second
join too, the disconnect-time reassignment (`hostSocketId === socket.id`)
never fires, and consequently the host-only `start_question` guard makes
`start_question` a no-op for every connected socket: no player ever holds
host status, not "exactly one". -/
theorem C5_host_never_assigned :
    (joinFlow [] "ch" userC5a "s1" 100).2.isHost = false ∧
    (aget storeC5one "ch").map (fun r => r.hostSocketId) = some none ∧
    (joinFlow storeC5one "ch" userC5b "s2" 200).2.isHost = false ∧
    (aget storeC5two "ch").map (fun r => r.hostSocketId) = some none ∧
    (aget (disconnectFlow storeC5two "ch" "u1" "s1" ["s2"] 300) "ch").map
      (fun r => r.hostSocketId) = some none ∧
    aget storeC5two "ch" = some roomC5final ∧
    roomC5final.players.length = 2 ∧
    pushStartQuestion roomC5final "s1" ⟨"Q?", ["A) x", "B) y"], "A"⟩ 0 400 = roomC5final ∧
    pushStartQuestion roomC5final "s2" ⟨"Q?", ["A) x", "B) y"], "A"⟩ 0 400 = roomC5final :=
  ⟨rfl, rfl, rfl, rfl, rfl, rfl, rfl, rfl, rfl⟩

/-! ### Push-transport timer resolution and the game-state cycle (claim C7) -/

/-- Two connected players, Alice hosting, room waiting (with the host
correctly bound so the `start_question` guard itself can be exercised). -/
def roomC7 : Room :=
  { players := [("alice", ⟨"alice", "Alice", 0, "s1", none⟩),
                ("bob", ⟨"bob", "Bob", 0, "s2", none⟩)]
    hostSocketId := some "s1"
    gameState := .waiting
    scores := [("alice", 0), ("bob", 0)] }

/-- The trivia record drawn for the C7 round. -/
def qrawC7 : RawTrivia := ⟨"Capital of France?", ["A) Paris", "B) Rome"], "A"⟩

/-- The C7 room mid-round: question started at epoch-ms 1000000, Alice
answered the correct option after 2 s, Bob never answers. -/
def roomC7mid : Room :=
  (pushSelectOption (pushStartQuestion roomC7 "s1" qrawC7 3 1000000) "alice" 0 1002000).1

/-- C7, failing-input evaluation: the round timer fires at 15 s; the
callback computes the bonus-factor scores (0 at expiry), reveals
`correctIndex` and the selections, and clears `currentQuestion` — but it
never sets `gameState` back to `'waiting'`, so the room stays `'active'`
and the host's next `start_question` is silently rejected by the
`gameState === 'active'` guard: the room never returns to the waiting
state the claim describes. -/
theorem C7_timer_leaves_gameState_active :
    (resolveRoundTimer roomC7mid 1015000).map (fun p => p.2) =
      some { correctIndex := some 0
             scores := [("alice", 0), ("bob", 0)]
             selections := [("alice", 0)] } ∧
    (resolveRoundTimer roomC7mid 1015000).map (fun p => p.1.currentQuestion) = some none ∧
    (resolveRoundTimer roomC7mid 1015000).map (fun p => p.1.gameState) = some .active ∧
    (resolveRoundTimer roomC7mid 1015000).map
      (fun p => pushStartQuestion p.1 "s1" qrawC7 4 1020000) =
      (resolveRoundTimer roomC7mid 1015000).map (fun p => p.1) := by
  have hb0 : (⌈((0 : ℚ) / 15) * 10⌉ : Int) = 0 := by norm_num
  have hmid : roomC7mid =
      { players := [("alice", ⟨"alice", "Alice", 0, "s1", none⟩),
                    ("bob", ⟨"bob", "Bob", 0, "s2", none⟩)]
        hostSocketId := some "s1"
        gameState := .active
        scores := [("alice", 0), ("bob", 0)]
        currentQuestion := some
          { question := some "Capital of France?"
            options := some ["A) Paris", "B) Rome"]
            correctIndex := some 0
            startTime := some 1000000
            maxTime := some 15
            qid := some ("q_" ++ toString (1000000 : Int) ++ "_" ++ toString (3 : ℕ)) }
        selections := [("alice", 0)]
        lastActive := 1002000 } := by rfl
  rw [hmid]
  refine ⟨?_, ?_, ?_, ?_⟩
  · simp [resolveRoundTimer, computeScores, aget, upsert, jsNumOr, MAX_TIME, hb0]
  · simp [resolveRoundTimer, computeScores, aget, upsert, jsNumOr, MAX_TIME, hb0]
  · simp [resolveRoundTimer, computeScores, aget, upsert, jsNumOr, MAX_TIME, hb0]
  · simp [resolveRoundTimer, computeScores, pushStartQuestion, aget, upsert, jsNumOr,
      MAX_TIME, hb0]

/-! ### The derived `scores` view vs. `players[*].score` (claim C8) -/

/-- Reading the rebuilt scores view is reading the player's score. -/
theorem aget_scoresView (players : List (String × Player)) (pid : String) :
    aget (players.map (fun kv => (kv.1, kv.2.score))) pid
      = (aget players pid).map (fun p => p.score) := by
  induction players with
  | nil => rfl
  | cons hd tl ih =>
    obtain ⟨k1, p1⟩ := hd
    by_cases h : k1 = pid
    · simp [aget, h]
    · simp [aget, h, ih]

/-- Reading the zero-score players map built by the daily reset. -/
theorem aget_resetPlayers (players : List (String × Player)) (pid : String) :
    aget (players.map (fun kv => (kv.1, { kv.2 with score := 0 }))) pid
      = (aget players pid).map (fun p => { p with score := 0 }) := by
  induction players with
  | nil => rfl
  | cons hd tl ih =>
    obtain ⟨k1, p1⟩ := hd
    by_cases h : k1 = pid
    · simp [aget, h]
    · simp [aget, h, ih]

/-- A mixed-transport room for the C8 counterexample: Alice is a joined
socket player (with a `players` record) and the round is settled through
the polling `end_round`. -/
def roomC8 : Room :=
  { players := [("alice", ⟨"alice", "Alice", 0, "s1", none⟩)]
    scores := [("alice", 0)]
    currentQuestion := some
      { question := some "Q?"
        options := some ["A) x", "B) y"]
        answer := some "A"
        qid := some "0" }
    currentSelections := [("alice", ⟨some 0, some 2, 9⟩)]
    roundEnded := false }

/-- C8, counterexample: the polling `end_round` adds Alice's 113 points to
`room.scores` but never touches `room.players["alice"].score`, so after
this score-affecting event the claimed invariant
`scores[id] == players[id].score` is false. -/
theorem C8_scores_view_cex :
    aget (endRoundHttp roomC8).1.scores "alice" = some 113 ∧
    (aget (endRoundHttp roomC8).1.players "alice").map (fun p => p.score) = some 0 ∧
    aget (endRoundHttp roomC8).1.scores "alice" ≠
      (aget (endRoundHttp roomC8).1.players "alice").map (fun p => p.score) := by
  have h2 : calculatePointsFromTime (some 2) = 113 := calculatePointsFromTime_at_two
  refine ⟨?_, ?_, ?_⟩
  · simp [endRoundHttp, roomC8, applyScoring, scoreOne, correctIndexOf, jsFindIndex,
      jsStartsWith, agetD, aget, upsert, h2]
  · simp [endRoundHttp, roomC8, aget]
  · simp [endRoundHttp, roomC8, applyScoring, scoreOne, correctIndexOf, jsFindIndex,
      jsStartsWith, agetD, aget, upsert, h2]

/-- C8 (amended): the invariant `scores[id] == players[id].score` does
hold after the events that rebuild the view from `players` — a push
join and a push round resolution; after the daily reset every player's
score is 0 but the view is *emptied* rather than rebuilt (entries are
absent, read as 0 by consumers); and after the polling `end_round` the
view is mutated without updating `players[*].score`, so there the
equality can fail for scored players (counterexample above — it holds
vacuously in pull-only rooms, whose `players` map is empty). -/
theorem C8_scores_view_amended :
    (∀ (store : List (String × Room)) (ch : String) (u : UserInfo) (s : String) (now : Int)
      (room : Room) (pid : String) (p : Player),
      aget (joinFlow store ch u s now).1 ch = some room →
      aget room.players pid = some p →
      aget room.scores pid = some p.score) ∧
    (∀ (room : Room) (now : Int) (room2 : Room) (res : ShowResult) (pid : String) (p : Player),
      resolveRoundTimer room now = some (room2, res) →
      aget room2.players pid = some p →
      aget room2.scores pid = some p.score) ∧
    (∀ (rooms : List (String × Room)) (ch : String) (room : Room),
      (ch, room) ∈ (resetLeaderboards rooms).rooms →
      room.scores = [] ∧ ∀ kv ∈ room.players, kv.2.score = 0) := by
  refine ⟨?_, ?_, ?_⟩
  · intro store ch u s now room pid p hroom hp
    simp only [joinFlow] at hroom
    rw [aget_upsert_self] at hroom
    obtain rfl := Option.some.inj hroom
    simp only at hp ⊢
    rw [aget_scoresView, hp]
    rfl
  · intro room now room2 res pid p hres hp
    cases hq : room.currentQuestion with
    | none => simp [resolveRoundTimer, hq] at hres
    | some q =>
      simp only [resolveRoundTimer, hq, Option.some.injEq] at hres
      obtain ⟨h1, h2⟩ := Prod.mk.injEq .. ▸ hres
      rw [← h1] at hp ⊢
      simp only at hp ⊢
      rw [aget_scoresView, hp]
      rfl
  · intro rooms ch room hmem
    simp only [resetLeaderboards, List.mem_map] at hmem
    obtain ⟨⟨ch0, r0⟩, hmem0, heq⟩ := hmem
    obtain ⟨rfl, rfl⟩ := Prod.mk.injEq .. ▸ heq.symm
    refine ⟨rfl, ?_⟩
    intro kv hkv
    simp only [resetRoom, List.mem_map] at hkv
    obtain ⟨a, _, rfl⟩ := hkv
    rfl

/-- The store after one join, for the C8 amended witness. -/
def storeC8w : List (String × Room) := (joinFlow [] "chw" ⟨"u9", "Wanda", none⟩ "s9" 100).1

/-- The joined room, for the C8 amended witness. -/
def roomC8w : Room := (aget storeC8w "chw").getD {}

/-- Witness for `C8_scores_view_amended`: the rebuilt view after a
concrete join, and the zeroed state after a concrete reset. -/
theorem C8_scores_view_amended_witness :
    aget roomC8w.scores "u9" = some (Player.score ⟨"u9", "Wanda", 0, "s9", none⟩) ∧
    ((resetLeaderboards [("chw", roomC8w)]).rooms = [("chw", resetRoom roomC8w)] ∧
      (resetRoom roomC8w).scores = [] ∧ ∀ kv ∈ (resetRoom roomC8w).players, kv.2.score = 0) :=
  ⟨C8_scores_view_amended.1 [] "chw" ⟨"u9", "Wanda", none⟩ "s9" 100 roomC8w "u9"
      ⟨"u9", "Wanda", 0, "s9", none⟩ rfl rfl,
   rfl,
   (C8_scores_view_amended.2.2 [("chw", roomC8w)] "chw" (resetRoom roomC8w)
      (List.mem_singleton.mpr rfl)).1,
   (C8_scores_view_amended.2.2 [("chw", roomC8w)] "chw" (resetRoom roomC8w)
      (List.mem_singleton.mpr rfl)).2⟩

/-! ### The daily leaderboard reset (claim C9) -/

/-- A pair membership puts its key among the keys. -/
theorem mem_keysOf_of_mem {β : Type} (l : List (String × β)) (ch : String) (b : β)
    (h : (ch, b) ∈ l) : ch ∈ keysOf l :=
  List.mem_map.mpr ⟨(ch, b), h, rfl⟩

/-- Looking up a per-room derived list (`l.map` over rooms) at a channel
that appears once returns that channel's value. -/
theorem aget_mapVals_of_mem {β γ : Type} (l : List (String × β)) (f : β → γ) (ch : String)
    (b : β) (hN : (keysOf l).Nodup) (hmem : (ch, b) ∈ l) :
    aget (l.map (fun kv => (kv.1, f kv.2))) ch = some (f b) := by
  induction l with
  | nil => cases hmem
  | cons hd tl ih =>
    obtain ⟨k1, b1⟩ := hd
    simp only [keysOf, List.map_cons, List.nodup_cons] at hN
    rcases List.mem_cons.mp hmem with heq | htl
    · obtain ⟨rfl, rfl⟩ := Prod.mk.injEq .. ▸ heq
      simp [aget]
    · have hne : k1 ≠ ch := by
        intro h
        subst h
        exact hN.1 (mem_keysOf_of_mem tl k1 b htl)
      simp only [List.map_cons, aget, if_neg hne]
      exact ih hN.2 htl

/-- Mapping over room values keeps the channel keys. -/
theorem keysOf_mapVals {β γ : Type} (l : List (String × β)) (f : β → γ) :
    keysOf (l.map (fun kv => (kv.1, f kv.2))) = keysOf l := by
  induction l with
  | nil => rfl
  | cons hd tl ih => simp [keysOf, ih]

/-- The refreshed roster the reset broadcasts equals the pre-reset roster
with every score replaced by 0. -/
theorem rosterOf_resetRoom (players : List (String × Player)) :
    (players.map (fun kv => (kv.1, { kv.2 with score := 0 }))).map
      (fun p => (⟨p.2.id, p.2.name, 0, p.2.avatar⟩ : ArchiveEntry))
    = players.map (fun kv => ⟨kv.2.id, kv.2.name, 0, kv.2.avatar⟩) := by
  induction players with
  | nil => rfl
  | cons hd tl ih => simp [ih]

/-- C9: after the daily reset, for each room (channel keys being unique in
the store): every player's score is 0 and the score view is cleared; the
archive sink received exactly one call for the room (the derived lists
keep exactly the store's channel keys) whose entries are exactly one per
pre-reset player carrying that player's pre-reset score; the
`leaderboard_reset` notification carries those same pre-reset entries;
and the `room_state` roster broadcast carries the refreshed roster with
every score 0. -/
theorem C9_daily_reset (rooms : List (String × Room)) (hN : (keysOf rooms).Nodup)
    (ch : String) (room : Room) (hmem : (ch, room) ∈ rooms) :
    aget (resetLeaderboards rooms).archiveCalls ch = some (archiveEntriesOf room) ∧
    archiveEntriesOf room
      = room.players.map (fun kv => ⟨kv.1, kv.2.name, kv.2.score, kv.2.avatar⟩) ∧
    keysOf (resetLeaderboards rooms).archiveCalls = keysOf rooms ∧
    aget (resetLeaderboards rooms).resetNotifications ch = some (archiveEntriesOf room) ∧
    aget (resetLeaderboards rooms).rooms ch = some (resetRoom room) ∧
    (resetRoom room).scores = [] ∧
    (∀ kv ∈ (resetRoom room).players, kv.2.score = 0) ∧
    aget (resetLeaderboards rooms).rosterBroadcasts ch
      = some (room.players.map (fun kv => ⟨kv.2.id, kv.2.name, 0, kv.2.avatar⟩)) := by
  refine ⟨?_, rfl, ?_, ?_, ?_, rfl, ?_, ?_⟩
  · exact aget_mapVals_of_mem rooms archiveEntriesOf ch room hN hmem
  · exact keysOf_mapVals rooms archiveEntriesOf
  · exact aget_mapVals_of_mem rooms archiveEntriesOf ch room hN hmem
  · exact aget_mapVals_of_mem rooms resetRoom ch room hN hmem
  · intro kv hkv
    simp only [resetRoom, List.mem_map] at hkv
    obtain ⟨a, _, rfl⟩ := hkv
    rfl
  · have h := aget_mapVals_of_mem rooms
      (fun r => (resetRoom r).players.map (fun p => (⟨p.2.id, p.2.name, 0, p.2.avatar⟩ : ArchiveEntry)))
      ch room hN hmem
    rw [show (resetLeaderboards rooms).rosterBroadcasts
        = rooms.map (fun kv =>
            (kv.1, (resetRoom kv.2).players.map
              (fun p => (⟨p.2.id, p.2.name, 0, p.2.avatar⟩ : ArchiveEntry)))) from rfl]
    rw [h]
    show some ((resetRoom room).players.map
        (fun p => (⟨p.2.id, p.2.name, 0, p.2.avatar⟩ : ArchiveEntry)))
      = some (room.players.map (fun kv => ⟨kv.2.id, kv.2.name, 0, kv.2.avatar⟩))
    rw [show (resetRoom room).players
        = room.players.map (fun kv => (kv.1, { kv.2 with score := 0 })) from rfl]
    rw [rosterOf_resetRoom]

/-- The store for the C9 witness: one room, one player with 42 points. -/
def roomsC9 : List (String × Room) :=
  [("ch", { players := [("u1", ⟨"u1", "Ann", 42, "s1", none⟩)], scores := [("u1", 42)] })]

/-- Witness for `C9_daily_reset` on the concrete store `roomsC9`. -/
theorem C9_daily_reset_witness :
    aget (resetLeaderboards roomsC9).archiveCalls "ch"
      = some (archiveEntriesOf ((aget roomsC9 "ch").getD {})) ∧
    aget (resetLeaderboards roomsC9).rooms "ch"
      = some (resetRoom ((aget roomsC9 "ch").getD {})) ∧
    (∀ kv ∈ (resetRoom ((aget roomsC9 "ch").getD {})).players, kv.2.score = 0) :=
  ⟨(C9_daily_reset roomsC9 (by simp [roomsC9, keysOf]) "ch" ((aget roomsC9 "ch").getD {})
      (by simp [roomsC9, aget])).1,
   (C9_daily_reset roomsC9 (by simp [roomsC9, keysOf]) "ch" ((aget roomsC9 "ch").getD {})
      (by simp [roomsC9, aget])).2.2.2.2.1,
   (C9_daily_reset roomsC9 (by simp [roomsC9, keysOf]) "ch" ((aget roomsC9 "ch").getD {})
      (by simp [roomsC9, aget])).2.2.2.2.2.2.1⟩

end DiscordBackend
